import Mathlib

/-!
Verification of the quantify measurement/data core against its specification.

The definitions below are a shallow embedding of the Python sources:
  * `quantify/data/data_handling.py`  (`gen_tuid`, `initialize_dataset`, `get_datadir`)
  * `quantify/measurement/control.py` (`MeasurementControl.run`, `_prepare`, `_finish`,
    `_get_fracdone`, `tile_setpoints_grid`)
Numeric cell values are modelled by an arbitrary type `α` (the Python code is
duck-typed over numpy scalars); the not-a-number sentinel used for unfilled
gettable entries is modelled by `Option α` with `none` playing the role of NaN.
-/

namespace Quantify

/-! ## Identifier generator (`gen_tuid`, data_handling.py lines 27-48)

The source builds the identifier with `ts.strftime('%Y%m%d-%H%M%S-.%f')` and
`"%s%03d-" % (dt, int(micro) / 1000)`, then appends `str(uuid4())[:6]`.
For timestamps with `1000 ≤ year ≤ 9999` every field is rendered as a
fixed-width zero-padded decimal, which is what `pad` below produces. -/

/-- Big-endian fixed-width decimal digits of `n` (the low `w` digits). -/
def digitsBE : ℕ → ℕ → List ℕ
  | 0, _ => []
  | w + 1, n => digitsBE w (n / 10) ++ [n % 10]

/-- The ASCII character of a decimal digit. -/
def digChar (d : ℕ) : Char :=
  match d with
  | 0 => '0' | 1 => '1' | 2 => '2' | 3 => '3' | 4 => '4'
  | 5 => '5' | 6 => '6' | 7 => '7' | 8 => '8' | _ => '9'

/-- Zero-padded fixed-width decimal rendering, as produced by `%0wd` on an
in-range argument. -/
def pad (w n : ℕ) : List Char := (digitsBE w n).map digChar

/-- A wall-clock timestamp as delivered by `datetime.now()`. -/
structure PyDatetime where
  year : ℕ
  month : ℕ
  day : ℕ
  hour : ℕ
  minute : ℕ
  second : ℕ
  microsecond : ℕ

/-- Timestamp validity: field ranges of a `datetime` (year restricted to four
digits, which is what `%Y` renders with fixed width). -/
def PyDatetime.valid (t : PyDatetime) : Prop :=
  1000 ≤ t.year ∧ t.year ≤ 9999 ∧ 1 ≤ t.month ∧ t.month ≤ 12 ∧
    1 ≤ t.day ∧ t.day ≤ 31 ∧ t.hour < 24 ∧ t.minute < 60 ∧
    t.second < 60 ∧ t.microsecond < 1000000

instance (t : PyDatetime) : Decidable t.valid := by
  unfold PyDatetime.valid; infer_instance

/-- `a` is strictly earlier than `b` at millisecond granularity
(the sub-millisecond part of the clock is discarded by `gen_tuid`). -/
def msLT (a b : PyDatetime) : Prop :=
  a.year < b.year ∨ (a.year = b.year ∧
    (a.month < b.month ∨ (a.month = b.month ∧
      (a.day < b.day ∨ (a.day = b.day ∧
        (a.hour < b.hour ∨ (a.hour = b.hour ∧
          (a.minute < b.minute ∨ (a.minute = b.minute ∧
            (a.second < b.second ∨ (a.second = b.second ∧
              a.microsecond / 1000 < b.microsecond / 1000)))))))))))

instance (a b : PyDatetime) : Decidable (msLT a b) := by
  unfold msLT; infer_instance

/-- The character list of a TUID: `YYYYMMDD-HHMMSS-mmm-` followed by the
6-character random suffix (`str(uuid4())[:6]` in the source). -/
def tuidChars (t : PyDatetime) (suffix : List Char) : List Char :=
  pad 4 t.year ++ (pad 2 t.month ++ (pad 2 t.day ++ ('-' ::
    (pad 2 t.hour ++ (pad 2 t.minute ++ (pad 2 t.second ++ ('-' ::
      (pad 3 (t.microsecond / 1000) ++ ('-' :: suffix)))))))))

/-- `gen_tuid` from data_handling.py: timestamp fields and milliseconds
rendered zero-padded, plus the random suffix (passed in explicitly here,
as the uuid draw is the only non-determinism of the source function). -/
def gen_tuid (t : PyDatetime) (suffix : String) : String :=
  ⟨tuidChars t suffix.data⟩

theorem digitsBE_length (w n : ℕ) : (digitsBE w n).length = w := by
  induction w generalizing n with
  | zero => rfl
  | succ w ih => simp [digitsBE, ih]

theorem pad_length (w n : ℕ) : (pad w n).length = w := by
  simp [pad, digitsBE_length]

theorem digChar_isDigit (d : ℕ) : (digChar d).isDigit = true := by
  unfold digChar
  split <;> decide

theorem digChar_lt {a b : ℕ} (h : a < b) (hb : b < 10) : digChar a < digChar b := by
  interval_cases b <;> interval_cases a <;> decide

/-- Lexicographic comparison of equal-length prefixes decides the comparison
of the concatenations. -/
theorem lex_append_left {r : Char → Char → Prop} {l₁ l₂ : List Char}
    (t₁ t₂ : List Char) (h : List.Lex r l₁ l₂) (hlen : l₁.length = l₂.length) :
    List.Lex r (l₁ ++ t₁) (l₂ ++ t₂) := by
  induction h with
  | nil => simp at hlen
  | rel h => exact List.Lex.rel h
  | cons h ih => exact List.Lex.cons (ih (by simpa using hlen))

theorem lex_append_same {r : Char → Char → Prop} (p : List Char) {t₁ t₂ : List Char}
    (h : List.Lex r t₁ t₂) : List.Lex r (p ++ t₁) (p ++ t₂) := by
  induction p with
  | nil => exact h
  | cons a p ih => exact List.Lex.cons ih

/-- Fixed-width zero-padded decimal renderings compare lexicographically
exactly like the numbers they render. -/
theorem pad_lex {w a b : ℕ} (ha : a < 10 ^ w) (hb : b < 10 ^ w) (h : a < b) :
    List.Lex (· < ·) (pad w a) (pad w b) := by
  induction w generalizing a b with
  | zero => simp at ha hb; omega
  | succ w ih =>
    have ea : pad (w + 1) a = pad w (a / 10) ++ [digChar (a % 10)] := by
      simp [pad, digitsBE]
    have eb : pad (w + 1) b = pad w (b / 10) ++ [digChar (b % 10)] := by
      simp [pad, digitsBE]
    have ha' : a / 10 < 10 ^ w := by
      rw [Nat.div_lt_iff_lt_mul (by norm_num)]
      calc a < 10 ^ (w + 1) := ha
        _ = 10 ^ w * 10 := by ring
    have hb' : b / 10 < 10 ^ w := by
      rw [Nat.div_lt_iff_lt_mul (by norm_num)]
      calc b < 10 ^ (w + 1) := hb
        _ = 10 ^ w * 10 := by ring
    rcases lt_trichotomy (a / 10) (b / 10) with hlt | heq | hgt
    · rw [ea, eb]
      exact lex_append_left _ _ (ih ha' hb' hlt) (by simp [pad_length])
    · have hmod : a % 10 < b % 10 := by
        have h10a := Nat.div_add_mod a 10
        have h10b := Nat.div_add_mod b 10
        omega
      rw [ea, eb, heq]
      exact lex_append_same _ (List.Lex.rel (digChar_lt hmod (Nat.mod_lt _ (by norm_num))))
    · have hle : a / 10 ≤ b / 10 := Nat.div_le_div_right (Nat.le_of_lt h)
      omega

/-- One fixed-width field step of a lexicographic comparison chain. -/
theorem lex_field {w a b : ℕ} {r₁ r₂ : List Char} (ha : a < 10 ^ w) (hb : b < 10 ^ w)
    (h : a < b ∨ (a = b ∧ List.Lex (· < ·) r₁ r₂)) :
    List.Lex (· < ·) (pad w a ++ r₁) (pad w b ++ r₂) := by
  rcases h with h | ⟨rfl, h⟩
  · exact lex_append_left _ _ (pad_lex ha hb h) (by simp [pad_length])
  · exact lex_append_same _ h

theorem mem_pad_isDigit {c : Char} {w n : ℕ} (h : c ∈ pad w n) : c.isDigit = true := by
  simp only [pad, List.mem_map] at h
  obtain ⟨d, -, rfl⟩ := h
  exact digChar_isDigit d

/-- C8: for every valid timestamp the generated identifier is 26 characters
in the form `YYYYMMDD-HHMMSS-mmm-xxxxxx` (three millisecond digits even when
the clock reports zero microseconds), and identifiers of timestamps that
differ at millisecond granularity sort lexicographically in chronological
order regardless of the random suffixes. -/
theorem gen_tuid_sortable (t1 t2 : PyDatetime) (s1 s2 : String)
    (h1 : t1.valid) (h2 : t2.valid) (hs1 : s1.length = 6) (hs2 : s2.length = 6)
    (hlt : msLT t1 t2) :
    (gen_tuid t1 s1).length = 26 ∧ (gen_tuid t2 s2).length = 26 ∧
      (∃ date time ms : List Char,
        (gen_tuid t1 s1).data =
            date ++ '-' :: (time ++ '-' :: (ms ++ '-' :: s1.data)) ∧
          date.length = 8 ∧ time.length = 6 ∧ ms.length = 3 ∧
          (∀ c ∈ date ++ time ++ ms, c.isDigit = true)) ∧
      gen_tuid t1 s1 < gen_tuid t2 s2 := by
  obtain ⟨_, hy1, _, hmo1, _, hd1, hh1, hmi1, hsec1, hus1⟩ := h1
  obtain ⟨_, hy2, _, hmo2, _, hd2, hh2, hmi2, hsec2, hus2⟩ := h2
  have e2 : (10 : ℕ) ^ 2 = 100 := by norm_num
  have e3 : (10 : ℕ) ^ 3 = 1000 := by norm_num
  have e4 : (10 : ℕ) ^ 4 = 10000 := by norm_num
  simp only [String.length] at hs1 hs2
  refine ⟨?_, ?_, ?_, ?_⟩
  · simp [gen_tuid, String.length, tuidChars, pad_length, hs1]
  · simp [gen_tuid, String.length, tuidChars, pad_length, hs2]
  · refine ⟨pad 4 t1.year ++ pad 2 t1.month ++ pad 2 t1.day,
        pad 2 t1.hour ++ pad 2 t1.minute ++ pad 2 t1.second,
        pad 3 (t1.microsecond / 1000), ?_, ?_, ?_, ?_, ?_⟩
    · simp [gen_tuid, tuidChars, List.append_assoc]
    · simp [pad_length]
    · simp [pad_length]
    · simp [pad_length]
    · intro c hc
      rcases List.mem_append.mp hc with hdt | hms
      · rcases List.mem_append.mp hdt with hd2 | htm
        · rcases List.mem_append.mp hd2 with h2 | h
          · rcases List.mem_append.mp h2 with h | h <;> exact mem_pad_isDigit h
          · exact mem_pad_isDigit h
        · rcases List.mem_append.mp htm with h2 | h
          · rcases List.mem_append.mp h2 with h | h <;> exact mem_pad_isDigit h
          · exact mem_pad_isDigit h
      · exact mem_pad_isDigit hms
  · refine String.lt_iff_toList_lt.mpr ?_
    show List.Lex (· < ·) (tuidChars t1 s1.data) (tuidChars t2 s2.data)
    unfold tuidChars
    apply lex_field (by rw [e4]; omega) (by rw [e4]; omega)
    rcases hlt with h | ⟨e, hlt⟩
    · exact Or.inl h
    refine Or.inr ⟨e, ?_⟩
    apply lex_field (by rw [e2]; omega) (by rw [e2]; omega)
    rcases hlt with h | ⟨e, hlt⟩
    · exact Or.inl h
    refine Or.inr ⟨e, ?_⟩
    apply lex_field (by rw [e2]; omega) (by rw [e2]; omega)
    rcases hlt with h | ⟨e, hlt⟩
    · exact Or.inl h
    refine Or.inr ⟨e, List.Lex.cons ?_⟩
    apply lex_field (by rw [e2]; omega) (by rw [e2]; omega)
    rcases hlt with h | ⟨e, hlt⟩
    · exact Or.inl h
    refine Or.inr ⟨e, ?_⟩
    apply lex_field (by rw [e2]; omega) (by rw [e2]; omega)
    rcases hlt with h | ⟨e, hlt⟩
    · exact Or.inl h
    refine Or.inr ⟨e, ?_⟩
    apply lex_field (by rw [e2]; omega) (by rw [e2]; omega)
    rcases hlt with h | ⟨e, hlt⟩
    · exact Or.inl h
    refine Or.inr ⟨e, List.Lex.cons ?_⟩
    apply lex_field (by rw [e3]; omega) (by rw [e3]; omega)
    exact Or.inl hlt

/-- Witness for `gen_tuid_sortable` at two concrete timestamps one
millisecond apart. -/
theorem gen_tuid_sortable_witness :
    (gen_tuid ⟨2020, 4, 30, 17, 8, 37, 999⟩ "fa9bc1").length = 26 ∧
      (gen_tuid ⟨2020, 4, 30, 17, 8, 37, 1000⟩ "315f36").length = 26 ∧
      (∃ date time ms : List Char,
        (gen_tuid ⟨2020, 4, 30, 17, 8, 37, 999⟩ "fa9bc1").data =
            date ++ '-' :: (time ++ '-' :: (ms ++ '-' :: ("fa9bc1" : String).data)) ∧
          date.length = 8 ∧ time.length = 6 ∧ ms.length = 3 ∧
          (∀ c ∈ date ++ time ++ ms, c.isDigit = true)) ∧
      gen_tuid ⟨2020, 4, 30, 17, 8, 37, 999⟩ "fa9bc1" <
        gen_tuid ⟨2020, 4, 30, 17, 8, 37, 1000⟩ "315f36" :=
  gen_tuid_sortable ⟨2020, 4, 30, 17, 8, 37, 999⟩ ⟨2020, 4, 30, 17, 8, 37, 1000⟩
    "fa9bc1" "315f36" (by decide) (by decide) (by decide) (by decide) (by decide)

/-! ## `tile_setpoints_grid` (control.py lines 347-371)

The source builds the grid column-wise: it starts from `setpoints[0]` as a
single column, and for each further 1-D array tiles every existing column
`len(setpoints_n)` times (`np.tile`) and appends `np.repeat(setpoints_n,
curr_l)` as the new last column.  The resulting `rows × k` array is
represented here by its list of `k` columns. -/

section Tile

variable {α : Type}

/-- `np.tile(c, k)`: `k` copies of the 1-D array `c` concatenated. -/
def tileList (k : ℕ) (c : List α) : List α := (List.replicate k c).flatten

/-- `np.repeat(s, k)`: each element of `s` repeated `k` times consecutively. -/
def repeatEach (s : List α) (k : ℕ) : List α := s.flatMap (List.replicate k)

/-- `len(xn)`: the number of rows of the column-represented grid, i.e. the
common length of its columns. -/
def colLen (cols : List (List α)) : ℕ :=
  match cols with
  | [] => 0
  | c :: _ => c.length

/-- The body of the `for setpoints_n in setpoints[1:]` loop. -/
def stepCols (cols : List (List α)) (s : List α) : List (List α) :=
  cols.map (tileList s.length) ++ [repeatEach s (colLen cols)]

/-- `tile_setpoints_grid`, columns representation.  The source indexes
`setpoints[0]` and so requires a non-empty argument list; the `[]` case is
never exercised by the claims. -/
def tile_setpoints_grid (setpoints : List (List α)) : List (List α) :=
  match setpoints with
  | [] => []
  | s0 :: rest => rest.foldl stepCols [s0]

/-- Number of rows of the tiled grid: product of the input array lengths. -/
def gridProd (ss : List (List α)) : ℕ := (ss.map List.length).prod

theorem gridProd_nil : gridProd ([] : List (List α)) = 1 := rfl

theorem gridProd_cons (s : List α) (ss : List (List α)) :
    gridProd (s :: ss) = s.length * gridProd ss := by
  simp [gridProd]

theorem gridProd_append_single (done : List (List α)) (s : List α) :
    gridProd (done ++ [s]) = gridProd done * s.length := by
  simp [gridProd]

theorem tileList_length (k : ℕ) (c : List α) : (tileList k c).length = k * c.length := by
  induction k with
  | zero => simp [tileList]
  | succ k ih =>
    simp only [tileList, List.replicate_succ, List.flatten_cons, List.length_append] at ih ⊢
    rw [ih]; ring

theorem repeatEach_length (s : List α) (k : ℕ) : (repeatEach s k).length = s.length * k := by
  induction s with
  | nil => simp [repeatEach]
  | cons v vs ih =>
    simp only [repeatEach, List.flatMap_cons, List.length_append, List.length_replicate,
      List.length_cons] at ih ⊢
    rw [ih]; ring

theorem map_getD {β : Type} (f : α → β) (l : List α) {j : ℕ} (hj : j < l.length)
    (d : α) (d' : β) : (l.map f).getD j d' = f (l.getD j d) := by
  rw [List.getD_eq_getElem _ _ (by simpa using hj), List.getD_eq_getElem _ _ hj,
    List.getElem_map]

theorem replicate_getD {k r : ℕ} {v d : α} (h : r < k) :
    (List.replicate k v).getD r d = v := by
  induction k generalizing r with
  | zero => omega
  | succ k ih =>
    cases r with
    | zero => simp [List.replicate_succ]
    | succ r =>
      simp only [List.replicate_succ, List.getD_cons_succ]
      exact ih (by omega)

theorem tileList_getD (c : List α) {k r : ℕ} (d : α) (h : r < k * c.length) :
    (tileList k c).getD r d = c.getD (r % c.length) d := by
  induction k generalizing r with
  | zero => omega
  | succ k ih =>
    have hc : tileList (k + 1) c = c ++ tileList k c := by
      simp [tileList, List.replicate_succ]
    rw [hc]
    by_cases hr : r < c.length
    · rw [List.getD_append _ _ _ _ hr, Nat.mod_eq_of_lt hr]
    · push_neg at hr
      rw [List.getD_append_right _ _ _ _ hr]
      have h' : r - c.length < k * c.length := by
        have hs : (k + 1) * c.length = k * c.length + c.length := by ring
        omega
      rw [ih h', Nat.mod_eq_sub_mod hr]

theorem repeatEach_getD (s : List α) {k r : ℕ} (d : α) (h : r < s.length * k) :
    (repeatEach s k).getD r d = s.getD (r / k) d := by
  induction s generalizing r with
  | nil => simp at h
  | cons v vs ih =>
    have hk : 0 < k := by
      rcases Nat.eq_zero_or_pos k with h0 | h0
      · subst h0; omega
      · exact h0
    have hs : repeatEach (v :: vs) k = List.replicate k v ++ repeatEach vs k := by
      simp [repeatEach]
    rw [hs]
    by_cases hr : r < k
    · rw [List.getD_append _ _ _ _ (by simpa using hr), replicate_getD hr,
        Nat.div_eq_of_lt hr]
      simp
    · push_neg at hr
      rw [List.getD_append_right _ _ _ _ (by simpa using hr)]
      have h' : r - k < vs.length * k := by
        simp only [List.length_cons] at h
        have hs2 : (vs.length + 1) * k = vs.length * k + k := by ring
        omega
      rw [List.length_replicate, ih h']
      have hrk : r = (r - k) + k := by omega
      conv_rhs => rw [hrk, Nat.add_div_right _ hk, List.getD_cons_succ]

theorem gridProd_take_dvd (done : List (List α)) (j : ℕ) (hj : j < done.length) :
    gridProd (done.take j) * (done.getD j []).length ∣ gridProd done := by
  induction done generalizing j with
  | nil => simp at hj
  | cons c tail ih =>
    cases j with
    | zero =>
      simp only [List.take_zero, gridProd_nil, one_mul, List.getD_cons_zero, gridProd_cons]
      exact dvd_mul_right _ _
    | succ j =>
      simp only [List.take_succ_cons, List.getD_cons_succ, gridProd_cons]
      have h2 := mul_dvd_mul_left c.length (ih j (by simpa using hj))
      simpa [mul_assoc] using h2

/-- Reducing an index modulo a multiple of `P * m` does not change its
`P`-quotient's residue modulo `m`. -/
theorem mod_div_mod (r P m L : ℕ) (hdvd : P * m ∣ L) :
    r % L / P % m = r / P % m := by
  rcases hdvd with ⟨t, ht⟩
  subst ht
  rcases Nat.eq_zero_or_pos P with hP | hP
  · subst hP; simp
  · conv_rhs =>
      rw [show r = r % (P * m * t) + P * (m * (t * (r / (P * m * t)))) from by
        have := Nat.mod_add_div r (P * m * t); ring_nf; ring_nf at this; omega]
    rw [Nat.add_mul_div_left _ _ hP, Nat.add_mul_mod_self_left]

/-- Loop invariant of `tile_setpoints_grid`: after the arrays in `done` have
been folded in, the accumulated columns are `done.length` many, all of length
`gridProd done`, and entry `r` of column `j` is the set-point of array `j` at
the `j`-th mixed-radix digit of `r` (first array fastest). -/
def TileInv (done cols : List (List α)) : Prop :=
  cols ≠ [] ∧
  cols.length = done.length ∧
  (∀ c ∈ cols, c.length = gridProd done) ∧
  ∀ (d : α) (j r : ℕ), j < done.length → r < gridProd done →
    (cols.getD j []).getD r d =
      (done.getD j []).getD ((r / gridProd (done.take j)) % (done.getD j []).length) d

theorem stepCols_inv {done cols : List (List α)} {s : List α}
    (h : TileInv done cols) : TileInv (done ++ [s]) (stepCols cols s) := by
  obtain ⟨hne, hlen, hcl, hent⟩ := h
  have hcolLen : colLen cols = gridProd done := by
    cases cols with
    | nil => exact absurd rfl hne
    | cons c cs => exact hcl c (List.mem_cons_self c cs)
  refine ⟨by simp [stepCols], ?_, ?_, ?_⟩
  · simp [stepCols, hlen]
  · intro c hc
    rcases List.mem_append.mp hc with hc | hc
    · obtain ⟨c0, hc0, rfl⟩ := List.mem_map.mp hc
      rw [tileList_length, hcl c0 hc0, gridProd_append_single]
      ring
    · rw [List.mem_singleton.mp hc, repeatEach_length, hcolLen,
        gridProd_append_single]
      ring
  · intro d j r hj hr
    rw [gridProd_append_single] at hr
    rw [List.length_append, List.length_singleton] at hj
    rcases Nat.lt_or_ge j done.length with hjlt | hjge
    · -- an old column: tiled `s.length` times
      have hjc : j < cols.length := by omega
      have hL0 : 0 < gridProd done := by
        rcases Nat.eq_zero_or_pos (gridProd done) with h0 | h0
        · rw [h0, zero_mul] at hr; omega
        · exact h0
      rw [stepCols, List.getD_append _ _ _ _ (by simpa using hjc),
        map_getD (tileList s.length) cols hjc []]
      have hclj : (cols.getD j []).length = gridProd done := by
        apply hcl
        rw [List.getD_eq_getElem _ _ hjc]
        exact List.getElem_mem _
      have hrange : r < s.length * (cols.getD j []).length := by
        rw [hclj]; calc r < gridProd done * s.length := hr
          _ = s.length * gridProd done := by ring
      rw [tileList_getD _ _ hrange, hclj]
      have hmodlt : r % gridProd done < gridProd done := Nat.mod_lt _ hL0
      rw [hent d j _ hjlt hmodlt]
      rw [List.getD_append _ _ _ _ hjlt,
        List.take_append_eq_append_take, Nat.sub_eq_zero_of_le (le_of_lt hjlt),
        List.take_zero, List.append_nil]
      rw [mod_div_mod r (gridProd (done.take j)) (done.getD j []).length
        (gridProd done) (gridProd_take_dvd done j hjlt)]
    · -- the new last column: `np.repeat(s, curr_l)`
      have hj' : j = done.length := by omega
      subst hj'
      rw [stepCols, List.getD_append_right _ _ _ _ (by simpa using hlen ▸ le_refl _)]
      rw [List.length_map, hlen, Nat.sub_self, List.getD_cons_zero]
      rw [hcolLen]
      have hrange : r < s.length * gridProd done := by
        calc r < gridProd done * s.length := hr
          _ = s.length * gridProd done := by ring
      rw [repeatEach_getD s _ hrange]
      rw [List.getD_append_right _ _ _ _ (le_refl _), Nat.sub_self,
        List.getD_cons_zero, List.take_left]
      have hL0 : 0 < gridProd done := by
        rcases Nat.eq_zero_or_pos (gridProd done) with h0 | h0
        · rw [h0, zero_mul] at hr; omega
        · exact h0
      have hdiv : r / gridProd done < s.length := by
        rw [Nat.div_lt_iff_lt_mul hL0]
        calc r < gridProd done * s.length := hr
          _ = s.length * gridProd done := by ring
      rw [Nat.mod_eq_of_lt hdiv]

theorem foldl_stepCols_inv (rest : List (List α)) :
    ∀ done cols, TileInv done cols →
      TileInv (done ++ rest) (rest.foldl stepCols cols) := by
  induction rest with
  | nil => intro done cols h; simpa using h
  | cons s rest ih =>
    intro done cols h
    have := ih (done ++ [s]) (stepCols cols s) (stepCols_inv h)
    simpa using this

theorem tileInv_init (s0 : List α) : TileInv [s0] [s0] := by
  refine ⟨by simp, rfl, ?_, ?_⟩
  · intro c hc
    rw [List.mem_singleton.mp hc]
    simp [gridProd]
  · intro d j r hj hr
    have hj0 : j = 0 := by simpa using hj
    subst hj0
    have hrlt : r < s0.length := by simpa [gridProd] using hr
    simp [gridProd_nil, Nat.mod_eq_of_lt hrlt]

/-- Mixed-radix positional representation: for radices `ns` and any choice of
one digit per position, exactly one index below the product has those digits
(digit `j` extracted by dividing by the product of the first `j` radices). -/
theorem mixedRadix_existsUnique (ns : List ℕ) (f : ℕ → ℕ)
    (hf : ∀ j, j < ns.length → f j < ns.getD j 0) :
    ∃! r, r < ns.prod ∧
      ∀ j, j < ns.length → r / (ns.take j).prod % ns.getD j 0 = f j := by
  induction ns generalizing f with
  | nil =>
    refine ⟨0, ⟨by simp, by intro j hj; simp at hj⟩, ?_⟩
    intro y hy
    have : y < 1 := by simpa using hy.1
    omega
  | cons n tail ih =>
    have hf0 : f 0 < n := by simpa using hf 0 (by simp)
    have hn : 0 < n := by omega
    obtain ⟨r', ⟨hr'lt, hr'dig⟩, hr'uniq⟩ :=
      ih (fun j => f (j + 1)) (fun j hj => by simpa using hf (j + 1) (by simpa using hj))
    refine ⟨f 0 + n * r', ⟨?_, ?_⟩, ?_⟩
    · have h1 : f 0 + n * r' < n * (r' + 1) := by
        have : n * (r' + 1) = n + n * r' := by ring
        omega
      have h2 : n * (r' + 1) ≤ n * tail.prod := Nat.mul_le_mul_left n hr'lt
      calc f 0 + n * r' < n * (r' + 1) := h1
        _ ≤ n * tail.prod := h2
        _ = (n :: tail).prod := by simp
    · intro j hj
      cases j with
      | zero =>
        simp only [List.take_zero, List.prod_nil, Nat.div_one, List.getD_cons_zero]
        rw [Nat.add_mul_mod_self_left, Nat.mod_eq_of_lt hf0]
      | succ j =>
        simp only [List.take_succ_cons, List.prod_cons, List.getD_cons_succ]
        rw [← Nat.div_div_eq_div_mul]
        have hq : (f 0 + n * r') / n = r' := by
          rw [Nat.add_mul_div_left _ _ hn, Nat.div_eq_of_lt hf0, Nat.zero_add]
        rw [hq]
        exact hr'dig j (by simpa using hj)
    · intro y ⟨hylt, hydig⟩
      have hy0 : y % n = f 0 := by
        have := hydig 0 (by simp)
        simpa using this
      have hyq : y / n < tail.prod := by
        rw [Nat.div_lt_iff_lt_mul hn]
        calc y < (n :: tail).prod := hylt
          _ = tail.prod * n := by simp [List.prod_cons]; ring
      have hyqdig : ∀ j, j < tail.length → y / n / (tail.take j).prod % tail.getD j 0 =
          f (j + 1) := by
        intro j hj
        have := hydig (j + 1) (by simpa using hj)
        simp only [List.take_succ_cons, List.prod_cons, List.getD_cons_succ] at this
        rw [Nat.div_div_eq_div_mul]
        exact this
      have hyq_eq : y / n = r' := hr'uniq (y / n) ⟨hyq, hyqdig⟩
      have hdm := Nat.div_add_mod y n
      rw [← hyq_eq, ← hy0]
      omega

/-- C10: for `k ≥ 1` one-dimensional set-point arrays, `tile_setpoints_grid`
returns a grid of `k` columns, each of the product length `n1⋯nk`; entry `r`
of column `j` is array `j` at the `j`-th little-endian mixed-radix digit of
`r` — the first array varies fastest — and every combination of one index
per input array is realised by exactly one row. -/
theorem tile_setpoints_grid_spec (ss : List (List α)) (hne : ss ≠ []) :
    (tile_setpoints_grid ss).length = ss.length ∧
      (∀ c ∈ tile_setpoints_grid ss, c.length = gridProd ss) ∧
      (∀ (d : α) (j r : ℕ), j < ss.length → r < gridProd ss →
        ((tile_setpoints_grid ss).getD j []).getD r d =
          (ss.getD j []).getD
            ((r / gridProd (ss.take j)) % (ss.getD j []).length) d) ∧
      (∀ f : ℕ → ℕ, (∀ j, j < ss.length → f j < (ss.getD j []).length) →
        ∃! r, r < gridProd ss ∧ ∀ j, j < ss.length →
          (r / gridProd (ss.take j)) % (ss.getD j []).length = f j) := by
  obtain ⟨s0, rest, rfl⟩ : ∃ s0 rest, ss = s0 :: rest := by
    cases ss with
    | nil => exact absurd rfl hne
    | cons s0 rest => exact ⟨s0, rest, rfl⟩
  have hinv : TileInv (s0 :: rest) (tile_setpoints_grid (s0 :: rest)) := by
    have := foldl_stepCols_inv rest [s0] [s0] (tileInv_init s0)
    simpa [tile_setpoints_grid] using this
  obtain ⟨-, hlen, hcl, hent⟩ := hinv
  refine ⟨hlen, hcl, fun d j r hj hr => hent d j r hj hr, ?_⟩
  -- unique-row-per-index-combination, via the mixed-radix lemma
  intro f hf
  set ss := s0 :: rest with hss
  have hmapl : (ss.map List.length).length = ss.length := List.length_map _ _
  have hgetD : ∀ j, j < ss.length →
      (ss.map List.length).getD j 0 = (ss.getD j []).length := by
    intro j hj
    exact map_getD List.length ss hj [] 0
  have htake : ∀ j, ((ss.map List.length).take j).prod = gridProd (ss.take j) := by
    intro j
    simp [gridProd, List.map_take]
  have hprod : (ss.map List.length).prod = gridProd ss := rfl
  obtain ⟨r, ⟨hrlt, hrdig⟩, hruniq⟩ :=
    mixedRadix_existsUnique (ss.map List.length) f
      (fun j hj => by
        rw [hgetD j (by simpa using hj)]
        exact hf j (by simpa using hj))
  refine ⟨r, ⟨by simpa [hprod] using hrlt, ?_⟩, ?_⟩
  · intro j hj
    have := hrdig j (by simpa using hj)
    rw [htake j, hgetD j hj] at this
    exact this
  · intro y ⟨hylt, hydig⟩
    refine hruniq y ⟨by simpa [hprod] using hylt, ?_⟩
    intro j hj
    have hj' : j < ss.length := by simpa using hj
    rw [htake j, hgetD j hj']
    exact hydig j hj'

/-- Witness for `tile_setpoints_grid_spec` on two concrete arrays. -/
theorem tile_setpoints_grid_spec_witness :
    (tile_setpoints_grid [[1, 2], [10, 20, 30]] : List (List ℤ)).length =
        ([[1, 2], [10, 20, 30]] : List (List ℤ)).length ∧
      (∀ c ∈ tile_setpoints_grid ([[1, 2], [10, 20, 30]] : List (List ℤ)),
        c.length = gridProd ([[1, 2], [10, 20, 30]] : List (List ℤ))) ∧
      (∀ (d : ℤ) (j r : ℕ), j < ([[1, 2], [10, 20, 30]] : List (List ℤ)).length →
        r < gridProd ([[1, 2], [10, 20, 30]] : List (List ℤ)) →
        ((tile_setpoints_grid ([[1, 2], [10, 20, 30]] : List (List ℤ))).getD j []).getD r d =
          (([[1, 2], [10, 20, 30]] : List (List ℤ)).getD j []).getD
            ((r / gridProd (([[1, 2], [10, 20, 30]] : List (List ℤ)).take j)) %
              (([[1, 2], [10, 20, 30]] : List (List ℤ)).getD j []).length) d) ∧
      (∀ f : ℕ → ℕ,
        (∀ j, j < ([[1, 2], [10, 20, 30]] : List (List ℤ)).length →
          f j < (([[1, 2], [10, 20, 30]] : List (List ℤ)).getD j []).length) →
        ∃! r, r < gridProd ([[1, 2], [10, 20, 30]] : List (List ℤ)) ∧
          ∀ j, j < ([[1, 2], [10, 20, 30]] : List (List ℤ)).length →
            (r / gridProd (([[1, 2], [10, 20, 30]] : List (List ℤ)).take j)) %
              (([[1, 2], [10, 20, 30]] : List (List ℤ)).getD j []).length = f j) :=
  tile_setpoints_grid_spec [[1, 2], [10, 20, 30]] (by simp)

end Tile

/-! ## Dataset model and `initialize_dataset` (data_handling.py lines 173-207) -/

section Dataset

variable {α : Type} [Inhabited α]

/-- The `name`/`label`/`unit` triple of a Settable or Gettable parameter. -/
structure ParSpec where
  pname : String
  plabel : String
  punit : String
deriving DecidableEq

/-- One `xarray.DataArray` of the dataset: positional variable name, cell
data (`none` is the NaN sentinel), and the `name`/`long_name`/`unit`
attributes set by `initialize_dataset`. -/
structure DataArr (α : Type) where
  varName : String
  data : List (Option α)
  attrName : String
  attrLongName : String
  attrUnit : String
deriving DecidableEq

/-- The merged dataset: its arrays plus the flat attribute dictionary
(`tuid` set at construction, `name` attached by `run`). -/
structure DSet (α : Type) where
  arrays : List (DataArr α)
  tuid : String
  dsetName : String
deriving DecidableEq

/-- Default used for out-of-range `getD` on array lists. -/
def emptyArr : DataArr α := ⟨"", [], "", "", ""⟩

/-- Default used for out-of-range `getD` on spec lists. -/
def emptySpec : ParSpec := ⟨"", "", ""⟩

/-- The `for i, setpar in enumerate(setable_pars)` loop: array `x{i}` holds
column `i` of the set-point grid (`setpoints[:, i]`) and the settable's
attributes. -/
def mkXArrs (setpoints : List (List α)) : ℕ → List ParSpec → List (DataArr α)
  | _, [] => []
  | i, p :: ps =>
    ⟨"x" ++ toString i, (setpoints.map (fun row => row.getD i default)).map some,
      p.pname, p.plabel, p.punit⟩ :: mkXArrs setpoints (i + 1) ps

/-- The `for j, getpar in enumerate(getable_pars)` loop: array `y{j}` is
`numpoints` NaN cells plus the gettable's attributes. -/
def mkYArrs (numpoints : ℕ) : ℕ → List ParSpec → List (DataArr α)
  | _, [] => []
  | j, p :: ps =>
    ⟨"y" ++ toString j, List.replicate numpoints (none : Option α),
      p.pname, p.plabel, p.punit⟩ :: mkYArrs numpoints (j + 1) ps

/-- `initialize_dataset` (data_handling.py lines 173-207).  `numpoints` is
`len(setpoints[:, 0])` in the source; `tuid` stands for the `gen_tuid()`
call made at construction time. -/
def initialize_dataset (setable_pars : List ParSpec) (setpoints : List (List α))
    (getable_pars : List ParSpec) (tuid : String) : DSet α :=
  { arrays := mkXArrs setpoints 0 setable_pars ++
      mkYArrs (setpoints.map (fun row => row.getD 0 default)).length 0 getable_pars,
    tuid := tuid,
    dsetName := "" }

theorem mkXArrs_length (sp : List (List α)) (i : ℕ) (ps : List ParSpec) :
    (mkXArrs sp i ps).length = ps.length := by
  induction ps generalizing i with
  | nil => rfl
  | cons p ps ih => simp [mkXArrs, ih]

theorem mkYArrs_length (n i : ℕ) (ps : List ParSpec) :
    (mkYArrs (α := α) n i ps).length = ps.length := by
  induction ps generalizing i with
  | nil => rfl
  | cons p ps ih => simp [mkYArrs, ih]

theorem mkXArrs_getD (sp : List (List α)) (i0 k : ℕ) (ps : List ParSpec)
    (hk : k < ps.length) :
    (mkXArrs sp i0 ps).getD k emptyArr =
      ⟨"x" ++ toString (i0 + k),
        (sp.map (fun row => row.getD (i0 + k) default)).map some,
        (ps.getD k emptySpec).pname, (ps.getD k emptySpec).plabel,
        (ps.getD k emptySpec).punit⟩ := by
  induction ps generalizing i0 k with
  | nil => simp at hk
  | cons p ps ih =>
    cases k with
    | zero => simp [mkXArrs]
    | succ k =>
      simp only [mkXArrs, List.getD_cons_succ]
      rw [ih (i0 + 1) k (by simpa using hk)]
      have he : i0 + 1 + k = i0 + (k + 1) := by omega
      rw [he]

theorem mkYArrs_getD (n : ℕ) (i0 k : ℕ) (ps : List ParSpec) (hk : k < ps.length) :
    (mkYArrs (α := α) n i0 ps).getD k emptyArr =
      ⟨"y" ++ toString (i0 + k), List.replicate n (none : Option α),
        (ps.getD k emptySpec).pname, (ps.getD k emptySpec).plabel,
        (ps.getD k emptySpec).punit⟩ := by
  induction ps generalizing i0 k with
  | nil => simp at hk
  | cons p ps ih =>
    cases k with
    | zero => simp [mkYArrs]
    | succ k =>
      simp only [mkYArrs, List.getD_cons_succ]
      rw [ih (i0 + 1) k (by simpa using hk)]
      have he : i0 + 1 + k = i0 + (k + 1) := by omega
      rw [he]

theorem mkXArrs_data_length (sp : List (List α)) (i : ℕ) (ps : List ParSpec) :
    ∀ a ∈ mkXArrs sp i ps, a.data.length = sp.length := by
  induction ps generalizing i with
  | nil => intro a ha; simp [mkXArrs] at ha
  | cons p ps ih =>
    intro a ha
    rcases List.mem_cons.mp ha with rfl | ha
    · simp
    · exact ih (i + 1) a ha

theorem mkYArrs_data_length (n i : ℕ) (ps : List ParSpec) :
    ∀ a ∈ mkYArrs (α := α) n i ps, a.data.length = n := by
  induction ps generalizing i with
  | nil => intro a ha; simp [mkYArrs] at ha
  | cons p ps ih =>
    intro a ha
    rcases List.mem_cons.mp ha with rfl | ha
    · simp
    · exact ih (i + 1) a ha

/-- C7: building the initial dataset from `M` settable specs, an `N × M`
grid with `N > 0`, and `K` gettable specs yields exactly `M + K` arrays of
length `N`: `x{i}` is column `i` of the grid with settable `i`'s attributes,
`y{j}` is all-NaN with gettable `j`'s attributes, and the dataset's metadata
carries the construction-time TUID. -/
theorem initialize_dataset_spec (spars : List ParSpec) (sp : List (List α))
    (gpars : List ParSpec) (t : String) (N : ℕ) (hN : sp.length = N) (hpos : 0 < N) :
    (initialize_dataset spars sp gpars t).arrays.length = spars.length + gpars.length ∧
      (∀ a ∈ (initialize_dataset spars sp gpars t).arrays, a.data.length = N) ∧
      (∀ i, i < spars.length →
        (initialize_dataset spars sp gpars t).arrays.getD i emptyArr =
          ⟨"x" ++ toString i, (sp.map (fun row => row.getD i default)).map some,
            (spars.getD i emptySpec).pname, (spars.getD i emptySpec).plabel,
            (spars.getD i emptySpec).punit⟩) ∧
      (∀ j, j < gpars.length →
        (initialize_dataset spars sp gpars t).arrays.getD (spars.length + j) emptyArr =
          ⟨"y" ++ toString j, List.replicate N (none : Option α),
            (gpars.getD j emptySpec).pname, (gpars.getD j emptySpec).plabel,
            (gpars.getD j emptySpec).punit⟩) ∧
      (initialize_dataset spars sp gpars t).tuid = t := by
  have hnum : (sp.map (fun row => row.getD 0 default)).length = N := by
    rw [List.length_map]; exact hN
  refine ⟨?_, ?_, ?_, ?_, rfl⟩
  · simp [initialize_dataset, mkXArrs_length, mkYArrs_length]
  · intro a ha
    rcases List.mem_append.mp ha with ha | ha
    · rw [mkXArrs_data_length sp 0 spars a ha]; exact hN
    · rw [mkYArrs_data_length _ 0 gpars a ha]; exact hnum
  · intro i hi
    have hi' : i < (mkXArrs sp 0 spars).length := by rw [mkXArrs_length]; exact hi
    rw [initialize_dataset, List.getD_append _ _ _ _ hi', mkXArrs_getD sp 0 i spars hi]
    simp
  · intro j hj
    have hge : (mkXArrs sp 0 spars).length ≤ spars.length + j := by
      rw [mkXArrs_length]; omega
    rw [initialize_dataset, List.getD_append_right _ _ _ _ hge, mkXArrs_length]
    have he : spars.length + j - spars.length = j := by omega
    rw [he, mkYArrs_getD _ 0 j gpars hj, hnum]
    simp

/-- Witness for `initialize_dataset_spec` at a concrete 2-settable,
1-gettable configuration over a 2 × 2 grid. -/
theorem initialize_dataset_spec_witness :
    (initialize_dataset [⟨"x", "X position", "m"⟩, ⟨"y", "Y position", "m"⟩]
        ([[0, 3], [1, 4]] : List (List ℤ)) [⟨"z", "Signal amplitude", "V"⟩]
        "20200430-170837-001-315f36").arrays.length = 2 + 1 ∧
      (∀ a ∈ (initialize_dataset [⟨"x", "X position", "m"⟩, ⟨"y", "Y position", "m"⟩]
          ([[0, 3], [1, 4]] : List (List ℤ)) [⟨"z", "Signal amplitude", "V"⟩]
          "20200430-170837-001-315f36").arrays, a.data.length = 2) ∧
      (∀ i, i < ([⟨"x", "X position", "m"⟩, ⟨"y", "Y position", "m"⟩] : List ParSpec).length →
        (initialize_dataset [⟨"x", "X position", "m"⟩, ⟨"y", "Y position", "m"⟩]
            ([[0, 3], [1, 4]] : List (List ℤ)) [⟨"z", "Signal amplitude", "V"⟩]
            "20200430-170837-001-315f36").arrays.getD i emptyArr =
          ⟨"x" ++ toString i,
            (([[0, 3], [1, 4]] : List (List ℤ)).map (fun row => row.getD i default)).map some,
            (([⟨"x", "X position", "m"⟩, ⟨"y", "Y position", "m"⟩] : List ParSpec).getD i emptySpec).pname,
            (([⟨"x", "X position", "m"⟩, ⟨"y", "Y position", "m"⟩] : List ParSpec).getD i emptySpec).plabel,
            (([⟨"x", "X position", "m"⟩, ⟨"y", "Y position", "m"⟩] : List ParSpec).getD i emptySpec).punit⟩) ∧
      (∀ j, j < ([⟨"z", "Signal amplitude", "V"⟩] : List ParSpec).length →
        (initialize_dataset [⟨"x", "X position", "m"⟩, ⟨"y", "Y position", "m"⟩]
            ([[0, 3], [1, 4]] : List (List ℤ)) [⟨"z", "Signal amplitude", "V"⟩]
            "20200430-170837-001-315f36").arrays.getD (2 + j) emptyArr =
          ⟨"y" ++ toString j, List.replicate 2 (none : Option ℤ),
            (([⟨"z", "Signal amplitude", "V"⟩] : List ParSpec).getD j emptySpec).pname,
            (([⟨"z", "Signal amplitude", "V"⟩] : List ParSpec).getD j emptySpec).plabel,
            (([⟨"z", "Signal amplitude", "V"⟩] : List ParSpec).getD j emptySpec).punit⟩) ∧
      (initialize_dataset [⟨"x", "X position", "m"⟩, ⟨"y", "Y position", "m"⟩]
          ([[0, 3], [1, 4]] : List (List ℤ)) [⟨"z", "Signal amplitude", "V"⟩]
          "20200430-170837-001-315f36").tuid = "20200430-170837-001-315f36" :=
  initialize_dataset_spec [⟨"x", "X position", "m"⟩, ⟨"y", "Y position", "m"⟩]
    ([[0, 3], [1, 4]] : List (List ℤ)) [⟨"z", "Signal amplitude", "V"⟩]
    "20200430-170837-001-315f36" 2 rfl (by omega)

/-! ## Dataset resizer (grow/trim)

`grow_dataset`/`trim_dataset` are exercised by
`tests/data/test_data_handling.py::test_dynamic_dataset` but their
implementation is not among the sources; the definitions below are modelled
from the specification (§4.3 Dataset Resizer). -/

/-- Modelled from the spec: `grow_dataset` "extends every array along the
acquisition dimension to `target_length`, padding new positions with
not-a-number" (§4.3; implementation absent from the sources). -/
def grow_dataset (ds : DSet α) (target_length : ℕ) : DSet α :=
  { ds with arrays := ds.arrays.map (fun a =>
      { a with data := a.data ++ List.replicate (target_length - a.data.length) none }) }

/-- Modelled from the spec: `trim_dataset` "truncates every array to the
first `actual_length` entries, discarding unused pre-allocated slack"
(§4.3; implementation absent from the sources). -/
def trim_dataset (ds : DSet α) (actual_length : ℕ) : DSet α :=
  { ds with arrays := ds.arrays.map (fun a => { a with data := a.data.take actual_length }) }

/-- C6: on a dataset whose arrays all have length `L`, growing to `N ≥ L`
pads every array with NaN beyond the original values, to the uniform length
`N`; trimming back to `L` truncates every array identically and restores the
original dataset exactly. -/
theorem grow_trim_spec (ds : DSet α) (L N : ℕ)
    (hL : ∀ a ∈ ds.arrays, a.data.length = L) (hLN : L ≤ N) :
    trim_dataset (grow_dataset ds N) L = ds ∧
      (grow_dataset ds N).arrays =
        ds.arrays.map (fun a => { a with data := a.data ++ List.replicate (N - L) none }) ∧
      (∀ a ∈ (grow_dataset ds N).arrays, a.data.length = N) ∧
      (∀ a ∈ (trim_dataset (grow_dataset ds N) L).arrays, a.data.length = L) := by
  refine ⟨?_, ?_, ?_, ?_⟩
  · show ({ grow_dataset ds N with arrays := _ } : DSet α) = ds
    simp only [trim_dataset, grow_dataset, List.map_map]
    have harr : ds.arrays.map ((fun a => { a with data := a.data.take L }) ∘
        (fun a : DataArr α =>
          { a with data := a.data ++ List.replicate (N - a.data.length) none })) =
        ds.arrays.map id := by
      apply List.map_congr_left
      intro a ha
      have h1 : a.data.length = L := hL a ha
      simp only [Function.comp_apply, id_eq]
      have htake : (a.data ++ List.replicate (N - a.data.length) none).take L = a.data := by
        rw [← h1, List.take_left]
      rw [htake]
    rw [harr, List.map_id]
  · apply List.map_congr_left
    intro a ha
    rw [hL a ha]
  · intro a ha
    simp only [grow_dataset] at ha
    obtain ⟨a0, ha0, rfl⟩ := List.mem_map.mp ha
    simp only [List.length_append, List.length_replicate]
    rw [hL a0 ha0]
    omega
  · intro a ha
    simp only [trim_dataset, grow_dataset, List.map_map] at ha
    obtain ⟨a0, ha0, rfl⟩ := List.mem_map.mp ha
    simp only [Function.comp_apply, List.length_take, List.length_append,
      List.length_replicate]
    rw [hL a0 ha0]
    omega

/-- Witness for `grow_trim_spec` on a concrete 3-array dataset of length 2
grown to 5 and trimmed back. -/
theorem grow_trim_spec_witness :
    trim_dataset (grow_dataset
        (⟨[⟨"x0", [some 1, some 2], "x", "X", "m"⟩,
           ⟨"x1", [some 5, some 6], "y", "Y", "m"⟩,
           ⟨"y0", [none, some 7], "z", "Z", "V"⟩], "20200430-170837-001-315f36", ""⟩ :
          DSet ℤ) 5) 2 =
      (⟨[⟨"x0", [some 1, some 2], "x", "X", "m"⟩,
         ⟨"x1", [some 5, some 6], "y", "Y", "m"⟩,
         ⟨"y0", [none, some 7], "z", "Z", "V"⟩], "20200430-170837-001-315f36", ""⟩ :
        DSet ℤ) ∧
      (grow_dataset
          (⟨[⟨"x0", [some 1, some 2], "x", "X", "m"⟩,
             ⟨"x1", [some 5, some 6], "y", "Y", "m"⟩,
             ⟨"y0", [none, some 7], "z", "Z", "V"⟩], "20200430-170837-001-315f36", ""⟩ :
            DSet ℤ) 5).arrays =
        (⟨[⟨"x0", [some 1, some 2], "x", "X", "m"⟩,
           ⟨"x1", [some 5, some 6], "y", "Y", "m"⟩,
           ⟨"y0", [none, some 7], "z", "Z", "V"⟩], "20200430-170837-001-315f36", ""⟩ :
          DSet ℤ).arrays.map
          (fun a => { a with data := a.data ++ List.replicate (5 - 2) none }) ∧
      (∀ a ∈ (grow_dataset
          (⟨[⟨"x0", [some 1, some 2], "x", "X", "m"⟩,
             ⟨"x1", [some 5, some 6], "y", "Y", "m"⟩,
             ⟨"y0", [none, some 7], "z", "Z", "V"⟩], "20200430-170837-001-315f36", ""⟩ :
            DSet ℤ) 5).arrays, a.data.length = 5) ∧
      (∀ a ∈ (trim_dataset (grow_dataset
          (⟨[⟨"x0", [some 1, some 2], "x", "X", "m"⟩,
             ⟨"x1", [some 5, some 6], "y", "Y", "m"⟩,
             ⟨"y0", [none, some 7], "z", "Z", "V"⟩], "20200430-170837-001-315f36", ""⟩ :
            DSet ℤ) 5) 2).arrays, a.data.length = 2) :=
  grow_trim_spec
    (⟨[⟨"x0", [some 1, some 2], "x", "X", "m"⟩,
       ⟨"x1", [some 5, some 6], "y", "Y", "m"⟩,
       ⟨"y0", [none, some 7], "z", "Z", "V"⟩], "20200430-170837-001-315f36", ""⟩ :
      DSet ℤ) 2 5 (by decide) (by omega)

end Dataset

/-! ## `_prepare` / `_finish` hook phases (control.py lines 213-230) -/

/-- A settable or gettable as seen by the hook phases: a tag identifying it
and, per optional hook, whether the object defines it (Python probes the
attribute and raises `AttributeError` when it is missing). -/
structure HookTarget where
  tag : ℕ
  hasPrepare : Bool
  hasFinish : Bool
deriving DecidableEq

inductive PyExn where
  | attributeError
deriving DecidableEq

/-- A Python `for` loop invoking the given optional hook on each target:
returns the tags invoked in order, and the `AttributeError` escaping the
loop at the first target lacking the hook (ending the loop). -/
def hookLoop (has : HookTarget → Bool) : List HookTarget → List ℕ × Option PyExn
  | [] => ([], none)
  | t :: ts =>
    if has t then
      let r := hookLoop has ts
      (t.tag :: r.1, r.2)
    else ([], some PyExn.attributeError)

/-- `try: <loop> except AttributeError: pass` — the exception is swallowed,
keeping whatever hook invocations happened before it. -/
def tryHookLoop (has : HookTarget → Bool) (ts : List HookTarget) : List ℕ :=
  (hookLoop has ts).1

/-- `_prepare` (lines 213-223): one try block over the settables'
`prepare()`, then one over the gettables' `prepare(setpoints)`; returns the
tags whose hook ran, in order. -/
def mc_prepare (settables gettables : List HookTarget) : List ℕ :=
  tryHookLoop (fun t => t.hasPrepare) settables ++
    tryHookLoop (fun t => t.hasPrepare) gettables

/-- Python truthiness of `a and b` for lists: `a` if `a` is empty, else `b`. -/
def pyAnd (a b : List HookTarget) : List HookTarget :=
  if a.isEmpty then a else b

/-- `_finish` (lines 225-230): a single try block over the expression
`self._gettable_pars and self._settable_pars`. -/
def mc_finish (gettables settables : List HookTarget) : List ℕ :=
  tryHookLoop (fun t => t.hasFinish) (pyAnd gettables settables)

/-- C4 (code bug): with settables `0` (all hooks), `1` (no `prepare`),
`2` (all hooks) and gettable `3` (all hooks), `_prepare` invokes only the
hooks of `0` and `3` — target `1`'s missing hook aborts the rest of the
settables — and `_finish` invokes only the settables' hooks, never the
gettable's, because `gettables and settables` evaluates to the settables. -/
theorem prepare_finish_hooks_bug :
    mc_prepare [⟨0, true, true⟩, ⟨1, false, true⟩, ⟨2, true, true⟩]
        [⟨3, true, true⟩] = [0, 3] ∧
      (2 : ℕ) ∉ mc_prepare [⟨0, true, true⟩, ⟨1, false, true⟩, ⟨2, true, true⟩]
        [⟨3, true, true⟩] ∧
      mc_finish [⟨3, true, true⟩]
        [⟨0, true, true⟩, ⟨1, false, true⟩, ⟨2, true, true⟩] = [0, 1, 2] ∧
      (3 : ℕ) ∉ mc_finish [⟨3, true, true⟩]
        [⟨0, true, true⟩, ⟨1, false, true⟩, ⟨2, true, true⟩] := by
  decide

/-! ## `_get_fracdone` and the hard-loop guard (control.py lines 177-187 and 232-236) -/

/-- `_get_fracdone`: `self._nr_acquired_values / (len(self._setpoints) *
self.soft_avg())` — per its docstring, the fraction (0‥1) of the experiment
completed. -/
def get_fracdone (nrAcquired nrSetpoints softAvg : ℕ) : ℚ :=
  (nrAcquired : ℚ) / ((nrSetpoints : ℚ) * (softAvg : ℚ))

/-- The hard-loop `while` guard exactly as written in `run` (line 178):
`self._get_fracdone() < 100`. -/
def hardLoopContinues (nrAcquired nrSetpoints softAvg : ℕ) : Bool :=
  decide (get_fracdone nrAcquired nrSetpoints softAvg < 100)

/-- `print_progress`'s percent-complete: `self._get_fracdone() * 100`. -/
def percdone (nrAcquired nrSetpoints softAvg : ℕ) : ℚ :=
  get_fracdone nrAcquired nrSetpoints softAvg * 100

/-- C3 (code bug): with one set-point and `soft_avg = 1`, after one acquired
value the experiment is 100 % complete (`percdone = 100`, fraction-done
`= 1`), yet the hard-loop guard `_get_fracdone() < 100` still holds — the
loop keeps calling the bulk read until the acquired-count reaches `100 ×`
the expected total (first false at 100 acquired values). -/
theorem hard_loop_guard_bug :
    get_fracdone 1 1 1 = 1 ∧ percdone 1 1 1 = 100 ∧
      hardLoopContinues 1 1 1 = true ∧
      hardLoopContinues 99 1 1 = true ∧
      hardLoopContinues 100 1 1 = false := by
  refine ⟨?_, ?_, ?_, ?_, ?_⟩ <;>
    norm_num [get_fracdone, percdone, hardLoopContinues]

/-! ## `get_datadir` (data_handling.py lines 51-57) -/

/-- The module constant `_default_datadir` (an absolute path computed from
`__file__`; its exact value is irrelevant to the claims). -/
def defaultDatadir : String := "quantify/data"

/-- `get_datadir`: takes the current value of the module variable
`this._datadir` (`none` when never set) and returns the updated module
variable together with the result.  The source has no failure path: an
unset directory is silently replaced by the module default. -/
def get_datadir (datadir : Option String) : Option String × String :=
  match datadir with
  | none => (some defaultDatadir, defaultDatadir)
  | some d => (some d, d)

/-- C9 (code bug): querying the data directory when it has never been set
does not fail fast — `get_datadir` silently installs and returns the module
default, contradicting `test_getset_datadir`, which demands a
`NotADirectoryError` "to avoid potential dataloss". -/
theorem get_datadir_unset_defaults :
    get_datadir none = (some defaultDatadir, defaultDatadir) := rfl

/-! ## The acquisition loop (`MeasurementControl.run`, control.py lines 123-196) -/

section Run

variable {α : Type} [Inhabited α]

/-- `dataset['y{j}'].values[idx] = val`: update cell `idx` of the array
named `y{j}` (out-of-range `idx` is a no-op of `List.set`; the claims only
exercise in-range writes). -/
def setYVal (ds : DSet α) (j idx : ℕ) (v : α) : DSet α :=
  { ds with arrays := ds.arrays.map (fun a =>
      if a.varName = "y" ++ toString j then { a with data := a.data.set idx (some v) }
      else a) }

/-- The hard loop's inner `for j, dp in enumerate(row)` loop: assign
`dataset['y{i}'].values[j] = dp` from position `j` upward. -/
def writeRowDS : DSet α → ℕ → ℕ → List α → DSet α
  | ds, _, _, [] => ds
  | ds, i, j, v :: vs => writeRowDS (setYVal ds i j v) i (j + 1) vs

/-- The hard loop's `for i, row in enumerate(new_data)` loop: channel `i`'s
row of new points is written into `y{i}` starting at index 0 (the `j` of
`enumerate(row)` restarts at 0 for every block). -/
def writeBlockDS : DSet α → ℕ → List (List α) → DSet α
  | ds, _, [] => ds
  | ds, i, row :: rows => writeBlockDS (writeRowDS ds i 0 row) (i + 1) rows

/-- `points_gathered` after the block loop: reassigned to `len(row)` on
each channel, so it ends as the length of the block's last row (0 for an
empty block). -/
def pointsGathered (block : List (List α)) : ℕ :=
  match block.getLast? with
  | some row => row.length
  | none => 0

/-- Bookkeeping of the hard loop: the dataset, `_nr_acquired_values`, and
the number of bulk reads made so far. -/
structure HardState (α : Type) where
  ds : DSet α
  nrAcquired : ℕ
  calls : ℕ
deriving DecidableEq

/-- One iteration of the hard-loop body (control.py lines 179-186), with the
gettable's successive bulk reads given by `read` as a function of the call
counter: fetch the next block, write it, add `points_gathered`. -/
def hardStep (read : ℕ → List (List α)) (st : HardState α) : HardState α :=
  { ds := writeBlockDS st.ds 0 (read st.calls),
    nrAcquired := st.nrAcquired + pointsGathered (read st.calls),
    calls := st.calls + 1 }

/-- `k` iterations of the hard-loop body. -/
def hardIter (read : ℕ → List (List α)) : ℕ → HardState α → HardState α
  | 0, st => st
  | k + 1, st => hardIter read k (hardStep read st)

/-- C2 (code bug): a hard loop delivering block `[[5]]` and then block
`[[7]]` into a two-point `y0` leaves `y0 = [7, NaN]` — the second block is
written starting at index 0, overwriting the first, not at the current
write offset (which would give `y0 = [5, 7]`) — while the acquired-count
does end up as 2, the total points across the blocks delivered. -/
theorem hard_loop_overwrite_bug :
    ((hardIter (fun k => if k = 0 then [[(5 : ℤ)]] else [[7]]) 2
          ⟨⟨[⟨"y0", [none, none], "z", "Z", "V"⟩], "t", ""⟩, 0, 0⟩).ds.arrays.getD 0
        emptyArr).data = [some 7, none] ∧
      (hardIter (fun k => if k = 0 then [[(5 : ℤ)]] else [[7]]) 2
          ⟨⟨[⟨"y0", [none, none], "z", "Z", "V"⟩], "t", ""⟩, 0, 0⟩).nrAcquired = 2 ∧
      [some 7, (none : Option ℤ)] ≠ [some 5, some 7] := by
  refine ⟨by decide, by decide, by decide⟩

/-- The two kinds of gettable behaviour.  Modelled from the spec: which
branch of `run` a gettable selects comes from
`is_internally_controlled(self._gettable_pars[0])`
(quantify/measurement/types.py, not among the sources); `soft` is the
software-paced branch that steps the set-point rows one at a time, `hard`
the branch of repeated bulk reads. -/
inductive GetBehavior (α : Type) where
  | soft (read : List α → α)
  | hard (read : ℕ → List (List α))

/-- A configured gettable: its `name`/`label`/`unit` spec plus behaviour. -/
structure GettablePar (α : Type) where
  spec : ParSpec
  behavior : GetBehavior α

/-- Filesystem effects of `run`, in order of occurrence. -/
inductive IOEvent where
  | createExpFolder
  | writeDatasetFile
  | writeSnapshotFile
deriving DecidableEq

/-- Python exceptions escaping `run`. -/
inductive RunError where
  | indexError
  | typeError
  | zeroDivisionError
  | fuelExhausted
deriving DecidableEq

/-- In-loop state: current settable values (registers), the dataset,
`_nr_acquired_values`, the `(settable index, value)` log of `set` calls, the
log of `get` calls, and the I/O events so far. -/
structure LoopState (α : Type) where
  regs : List α
  ds : DSet α
  nr : ℕ
  sets : List (ℕ × α)
  gets : List ℕ
  events : List IOEvent

/-- `for spar, spt in zip(self._settable_pars, spts): spar.set(spt)` —
register `i` takes row value `i`, for as many pairs as `zip` yields. -/
def setRow (regs row : List α) : List α :=
  List.zipWith (fun _ v => v) regs row ++ regs.drop row.length

/-- `gpar.get()` in the soft branch, reading the current register state. -/
def gettableRead (g : GettablePar α) (regs : List α) : α :=
  match g.behavior with
  | .soft f => f regs
  | .hard _ => default

/-- The soft branch's `for j, gpar in enumerate(self._gettable_pars)` loop:
read each gettable once and store the scalar at the current row index. -/
def readRowGo (regs : List α) (idx : ℕ) : ℕ → List (GettablePar α) → DSet α → DSet α
  | _, [], ds => ds
  | j, g :: gs, ds => readRowGo regs idx (j + 1) gs (setYVal ds j idx (gettableRead g regs))

/-- The `_update` step (control.py lines 203-211): flush when the
`update_interval` has elapsed (oracle `upd`, indexed by the call) or the
acquired-count equals the number of set-points. -/
def updStep (upd : ℕ → Bool) (N call nr : ℕ) (events : List IOEvent) : List IOEvent :=
  if upd call || decide (nr = N) then events ++ [IOEvent.writeDatasetFile] else events

/-- The soft branch: `for idx, spts in enumerate(self._setpoints)` — set all
settables to the row, read every gettable once into row index `idx`,
increment the acquired-count, run the throttled update. -/
def softLoop (gettables : List (GettablePar α)) (upd : ℕ → Bool) (N : ℕ) :
    List (List α) → ℕ → LoopState α → LoopState α
  | [], _, st => st
  | row :: rows, idx, st =>
    let regs' := setRow st.regs row
    let ds' := readRowGo regs' idx 0 gettables st.ds
    let nr' := st.nr + 1
    softLoop gettables upd N rows (idx + 1)
      { regs := regs', ds := ds', nr := nr',
        sets := st.sets ++ (row.take st.regs.length).enum,
        gets := st.gets ++ List.replicate gettables.length idx,
        events := updStep upd N idx nr' st.events }

/-- The hard branch: `while self._get_fracdone() < 100`, fuelled (the source
loop is unbounded; exhausting fuel with the guard still true is reported as
the modelling artefact `fuelExhausted`). -/
def hardLoopRun (read : ℕ → List (List α)) (upd : ℕ → Bool) (N avg : ℕ) :
    ℕ → ℕ → LoopState α → Except RunError (LoopState α)
  | 0, _, st =>
    if get_fracdone st.nr N avg < 100 then Except.error RunError.fuelExhausted
    else Except.ok st
  | fuel + 1, calls, st =>
    if get_fracdone st.nr N avg < 100 then
      let block := read calls
      let nr' := st.nr + pointsGathered block
      hardLoopRun read upd N avg fuel (calls + 1)
        { regs := st.regs, ds := writeBlockDS st.ds 0 block, nr := nr',
          sets := st.sets, gets := st.gets ++ [calls],
          events := updStep upd N calls nr' st.events }
    else Except.ok st

/-- Everything observable about one `run` invocation. -/
structure RunOutcome (α : Type) where
  events : List IOEvent
  sets : List (ℕ × α)
  gets : List ℕ
  result : Except RunError (DSet α)

/-- `MeasurementControl.run` (control.py lines 123-196).  `setpointsCfg` is
`none` when `set_setpoints` was never called (the Python `[]` default, whose
`setpoints[:, i]` indexing raises `TypeError` inside `initialize_dataset`);
`tuid` stands for the construction-time `gen_tuid()` draw, `upd` for the
wall-clock update-interval test, and `fuel` bounds the unbounded hard
`while` loop.  Live plotting is disabled (`instr_plotmon` unset) and the
`_prepare`/`_finish` hook probing, which touches neither the dataset nor the
filesystem, is modelled separately by `mc_prepare`/`mc_finish`. -/
def run (settables : List ParSpec) (setpointsCfg : Option (List (List α)))
    (gettables : List (GettablePar α)) (softAvg : ℕ) (upd : ℕ → Bool)
    (fuel : ℕ) (tuid dsname : String) : RunOutcome α :=
  match gettables with
  | [] => ⟨[], [], [], Except.error RunError.indexError⟩
  | g0 :: _ =>
    match setpointsCfg with
    | none => ⟨[], [], [], Except.error RunError.typeError⟩
    | some setpoints =>
      let ds0 := initialize_dataset settables setpoints (gettables.map GettablePar.spec) tuid
      let ds1 := { ds0 with dsetName := dsname }
      let ev0 := [IOEvent.createExpFolder, IOEvent.writeDatasetFile, IOEvent.writeSnapshotFile]
      let N := setpoints.length
      let st0 : LoopState α :=
        { regs := List.replicate settables.length default, ds := ds1, nr := 0,
          sets := [], gets := [], events := ev0 }
      match g0.behavior with
      | .soft _ =>
        let stF := softLoop gettables upd N setpoints 0 st0
        ⟨stF.events ++ [IOEvent.writeDatasetFile], stF.sets, stF.gets, Except.ok stF.ds⟩
      | .hard read =>
        if N * softAvg = 0 then ⟨ev0, [], [], Except.error RunError.zeroDivisionError⟩
        else
          match hardLoopRun read upd N softAvg fuel 0 st0 with
          | Except.error e => ⟨ev0, [], [], Except.error e⟩
          | Except.ok stF =>
            ⟨stF.events ++ [IOEvent.writeDatasetFile], stF.sets, stF.gets, Except.ok stF.ds⟩

/-- C1: a soft-loop run over set-points `[[0],[1],[2]]` with one settable
and a gettable returning twice the value most recently set visits the rows
in row order (the `set` log), assigns the settable each row's value, reads
the gettable once per row (the `get` log), stores each scalar at the current
row index, and returns a dataset with `y0 = [0, 2, 4]`. -/
theorem run_soft_loop_example :
    (run [⟨"t", "Time", "s"⟩] (some ([[0], [1], [2]] : List (List ℤ)))
          [⟨⟨"sig", "Signal", "V"⟩, GetBehavior.soft (fun regs => 2 * regs.getD 0 0)⟩]
          1 (fun _ => false) 0 "20200430-170837-001-315f36" "sweep").sets
        = [(0, 0), (0, 1), (0, 2)] ∧
      (run [⟨"t", "Time", "s"⟩] (some ([[0], [1], [2]] : List (List ℤ)))
          [⟨⟨"sig", "Signal", "V"⟩, GetBehavior.soft (fun regs => 2 * regs.getD 0 0)⟩]
          1 (fun _ => false) 0 "20200430-170837-001-315f36" "sweep").gets
        = [0, 1, 2] ∧
      (run [⟨"t", "Time", "s"⟩] (some ([[0], [1], [2]] : List (List ℤ)))
          [⟨⟨"sig", "Signal", "V"⟩, GetBehavior.soft (fun regs => 2 * regs.getD 0 0)⟩]
          1 (fun _ => false) 0 "20200430-170837-001-315f36" "sweep").result
        = Except.ok ⟨[⟨"x0", [some 0, some 1, some 2], "t", "Time", "s"⟩,
            ⟨"y0", [some 0, some 2, some 4], "sig", "Signal", "V"⟩],
            "20200430-170837-001-315f36", "sweep"⟩ ∧
      (run [⟨"t", "Time", "s"⟩] (some ([[0], [1], [2]] : List (List ℤ)))
          [⟨⟨"sig", "Signal", "V"⟩, GetBehavior.soft (fun regs => 2 * regs.getD 0 0)⟩]
          1 (fun _ => false) 0 "20200430-170837-001-315f36" "sweep").events
        = [IOEvent.createExpFolder, IOEvent.writeDatasetFile, IOEvent.writeSnapshotFile,
            IOEvent.writeDatasetFile, IOEvent.writeDatasetFile] :=
  ⟨rfl, rfl, rfl, rfl⟩

/-- C5 counterexample: a run over an empty (`N = 0`) set-point grid with a
soft gettable is not rejected at all — no `ConfigurationError`, no error of
any kind — and the experiment container and both files are created before
the loop is even reached. -/
theorem run_empty_grid_counterexample :
    (run [⟨"t", "Time", "s"⟩] (some ([] : List (List ℤ)))
          [⟨⟨"sig", "Signal", "V"⟩, GetBehavior.soft (fun _ => 0)⟩]
          1 (fun _ => false) 0 "20200430-170837-001-315f36" "empty").result
        = Except.ok ⟨[⟨"x0", [], "t", "Time", "s"⟩, ⟨"y0", [], "sig", "Signal", "V"⟩],
            "20200430-170837-001-315f36", "empty"⟩ ∧
      (run [⟨"t", "Time", "s"⟩] (some ([] : List (List ℤ)))
          [⟨⟨"sig", "Signal", "V"⟩, GetBehavior.soft (fun _ => 0)⟩]
          1 (fun _ => false) 0 "20200430-170837-001-315f36" "empty").events
        = [IOEvent.createExpFolder, IOEvent.writeDatasetFile, IOEvent.writeSnapshotFile,
            IOEvent.writeDatasetFile] :=
  ⟨rfl, rfl⟩

/-- C5 amended: `run` with no gettable fails with an `IndexError` before any
I/O; with the set-point grid never configured it fails with a `TypeError`
inside dataset construction, before any I/O; but an empty (`N = 0`) grid is
not rejected — the soft-branch run creates the experiment container, writes
the dataset and snapshot files, and completes normally (the soft branch
never raises at all). -/
theorem run_configuration_errors {α : Type} [Inhabited α] :
    (∀ (settables : List ParSpec) (spCfg : Option (List (List α))) (avg : ℕ)
        (upd : ℕ → Bool) (fuel : ℕ) (t nm : String),
      (run settables spCfg ([] : List (GettablePar α)) avg upd fuel t nm).events = [] ∧
        (run settables spCfg ([] : List (GettablePar α)) avg upd fuel t nm).result =
          Except.error RunError.indexError) ∧
      (∀ (settables : List ParSpec) (g : GettablePar α) (gs : List (GettablePar α))
          (avg : ℕ) (upd : ℕ → Bool) (fuel : ℕ) (t nm : String),
        (run settables none (g :: gs) avg upd fuel t nm).events = [] ∧
          (run settables none (g :: gs) avg upd fuel t nm).result =
            Except.error RunError.typeError) ∧
      (∀ (settables : List ParSpec) (spec : ParSpec) (f : List α → α)
          (gs : List (GettablePar α)) (avg : ℕ) (upd : ℕ → Bool) (fuel : ℕ)
          (t nm : String),
        (run settables (some ([] : List (List α))) (⟨spec, GetBehavior.soft f⟩ :: gs)
            avg upd fuel t nm).events =
          [IOEvent.createExpFolder, IOEvent.writeDatasetFile, IOEvent.writeSnapshotFile,
            IOEvent.writeDatasetFile] ∧
          (run settables (some ([] : List (List α))) (⟨spec, GetBehavior.soft f⟩ :: gs)
              avg upd fuel t nm).result =
            Except.ok { initialize_dataset settables ([] : List (List α))
                ((⟨spec, GetBehavior.soft f⟩ :: gs).map GettablePar.spec) t with
              dsetName := nm }) ∧
      (∀ (settables : List ParSpec) (sp : List (List α)) (spec : ParSpec)
          (f : List α → α) (gs : List (GettablePar α)) (avg : ℕ) (upd : ℕ → Bool)
          (fuel : ℕ) (t nm : String),
        ∃ ds, (run settables (some sp) (⟨spec, GetBehavior.soft f⟩ :: gs)
            avg upd fuel t nm).result = Except.ok ds) :=
  ⟨fun _ _ _ _ _ _ _ => ⟨rfl, rfl⟩,
    fun _ _ _ _ _ _ _ _ => ⟨rfl, rfl⟩,
    fun _ _ _ _ _ _ _ _ _ => ⟨rfl, rfl⟩,
    fun _ _ _ _ _ _ _ _ _ _ => ⟨_, rfl⟩⟩

end Run

end Quantify
